import Mathlib

/-!
Shallow embedding of `src/kmacho/structs.py` (ktool): a fixed-layout binary
record codec.  A `Struct` subclass carries an ordered field-name list and a
parallel byte-width list; records are decoded from bytes
(`create_with_bytes`), constructed from values (`create_with_values`), and
every field write on a live record triggers a whole-record re-encode
(`_rebuild_raw` via `__setattr__`).

Modelling choices, all taken from the source:
* bytes are `List Nat` (each entry one byte value);
* Python ints are `Int` (they may be negative, which `int.to_bytes` rejects);
* a field's current value is either an int or a byte blob (`FieldVal`);
* Python exceptions raised by the codec are an explicit error type
  (`OverflowError` from `int.to_bytes` ↦ `fieldOverflow`, `ValueError` for a
  negative int ↦ `negativeInt`, the `assert len(raw) == self._sizeof` in
  `_rebuild_raw` ↦ `sizeAssert`, `IndexError` on `values[i]` in
  `create_with_values` ↦ `indexError`);
* the `_fields` dict keyed by the (distinct) field names, iterated in
  `_field_list` order, is modelled as a value list aligned with the field
  list (`missingField` marks the misalignment that the dict makes impossible);
* the Python attribute `initialized` is the field `inited` here.
-/

deriving instance DecidableEq for Except

inductive ByteOrder
  | little
  | big
deriving DecidableEq, Repr

/-- A field's current value: an unsigned/signed Python int, or a raw byte
blob (Python `bytes`/`bytearray`). -/
inductive FieldVal
  | int (v : Int)
  | blob (b : List Nat)
deriving DecidableEq, Repr

/-- Errors the codec can signal (Python exceptions in the source). -/
inductive StructError
  | fieldOverflow
  | negativeInt
  | sizeAssert
  | indexError
  | missingField
deriving DecidableEq, Repr

/-- A record schema: the `_FIELDNAMES` / `_SIZES` pair of a `Struct`
subclass, as an ordered list of (name, byte width). -/
structure Schema where
  fields : List (String × Nat)
deriving DecidableEq, Repr

/-- `sum(sizes)` over a field list. -/
def sizesSum (flds : List (String × Nat)) : Nat :=
  (flds.map Prod.snd).sum

/-- `self._sizeof = sum(sizes)` (also the value of `__len__`). -/
def Schema.sizeof (s : Schema) : Nat :=
  sizesSum s.fields

/-- A live `Struct` instance: schema, byte order, current field values
(aligned with `schema.fields`), cached `raw` buffer, `initialized` flag. -/
structure StructRec where
  schema : Schema
  byteOrder : ByteOrder
  vals : List FieldVal
  raw : List Nat
  inited : Bool
deriving DecidableEq, Repr

/-- Little-endian byte encoding of `v` into exactly `n` bytes
(`int.to_bytes(n, "little")` for `0 ≤ v < 2^(8n)`): least-significant byte
first. -/
def toBytesLE (v : Nat) : Nat → List Nat
  | 0 => []
  | n + 1 => v % 256 :: toBytesLE (v / 256) n

/-- `int.to_bytes(n, byteorder)`: big-endian is the reverse of
little-endian. -/
def toBytes (order : ByteOrder) (v : Nat) (n : Nat) : List Nat :=
  match order with
  | ByteOrder.little => toBytesLE v n
  | ByteOrder.big => (toBytesLE v n).reverse

/-- `int.from_bytes(data, "little")`. -/
def fromBytesLE : List Nat → Nat
  | [] => 0
  | b :: rest => b + 256 * fromBytesLE rest

/-- `int.from_bytes(data, "big")`. -/
def fromBytesBE (l : List Nat) : Nat :=
  l.foldl (fun acc b => 256 * acc + b) 0

/-- `int.from_bytes(data, byte_order)`. -/
def fromBytes (order : ByteOrder) (l : List Nat) : Nat :=
  match order with
  | ByteOrder.little => fromBytesLE l
  | ByteOrder.big => fromBytesBE l

/-- One step of `_rebuild_raw`'s loop body: `field_dat.to_bytes(size,
byteorder=self.byte_order)` for an int (raising `OverflowError` when the
value does not fit in `size` bytes and `ValueError` when it is negative),
verbatim copy for a blob. -/
def encodeField (order : ByteOrder) (sz : Nat) : FieldVal → Except StructError (List Nat)
  | FieldVal.int v =>
    if v < 0 then Except.error StructError.negativeInt
    else if (2 : Int) ^ (8 * sz) ≤ v then Except.error StructError.fieldOverflow
    else Except.ok (toBytes order v.toNat sz)
  | FieldVal.blob b => Except.ok b

/-- The loop of `_rebuild_raw`: encode each field in declared order and
concatenate, stopping at the first exception. -/
def encodeFields (order : ByteOrder) : List (String × Nat) → List FieldVal → Except StructError (List Nat)
  | [], _ => Except.ok []
  | _ :: _, [] => Except.error StructError.missingField
  | (_, sz) :: rest, v :: vs =>
    match encodeField order sz v with
    | Except.error e => Except.error e
    | Except.ok data =>
      match encodeFields order rest vs with
      | Except.error e => Except.error e
      | Except.ok tail => Except.ok (data ++ tail)

/-- `_rebuild_raw`: rebuild the whole buffer, then `assert len(raw) ==
self._sizeof`; `self.raw` is only assigned after the assert, so a failing
rebuild leaves the previous `raw` in place (the caller keeps the old
buffer). -/
def rebuildRaw (r : StructRec) : Except StructError (List Nat) :=
  match encodeFields r.byteOrder r.schema.fields r.vals with
  | Except.error e => Except.error e
  | Except.ok raw =>
    if raw.length = Schema.sizeof r.schema then Except.ok raw
    else Except.error StructError.sizeAssert

/-- `create_with_values`: assign `values[i]` to field `i` in declared order
(`IndexError` when `values` is shorter than the field list; extra values are
silently ignored), then `_rebuild_raw()` once and mark the record
initialized. -/
def create_with_values (sc : Schema) (values : List FieldVal) (order : ByteOrder) : Except StructError StructRec :=
  if values.length < sc.fields.length then Except.error StructError.indexError
  else
    let r0 : StructRec :=
      { schema := sc, byteOrder := order,
        vals := values.take sc.fields.length,
        raw := [], inited := false }
    match rebuildRaw r0 with
    | Except.error e => Except.error e
    | Except.ok raw => Except.ok { r0 with raw := raw, inited := true }

/-- The loop of `create_with_bytes`, with the running offset: for each field,
`data = raw[current_off:current_off + size]` (a Python slice, silently short
when the buffer runs out), the field value is `int.from_bytes(data,
byte_order)`, and `data` is appended to the instance's `raw`. -/
def decodeLoop (order : ByteOrder) (buf : List Nat) : List (String × Nat) → Nat → List FieldVal × List Nat
  | [], _ => ([], [])
  | (_, sz) :: rest, off =>
    let data := (buf.drop off).take sz
    let p := decodeLoop order buf rest (off + sz)
    (FieldVal.int (Int.ofNat (fromBytes order data)) :: p.1, data ++ p.2)

/-- `decodeLoop` with the remaining buffer instead of the offset; used in
proofs via `decodeLoop_eq_aux`. -/
def decodeAux (order : ByteOrder) : List (String × Nat) → List Nat → List FieldVal × List Nat
  | [], _ => ([], [])
  | (_, sz) :: rest, buf =>
    let data := buf.take sz
    let p := decodeAux order rest (buf.drop sz)
    (FieldVal.int (Int.ofNat (fromBytes order data)) :: p.1, data ++ p.2)

/-- `create_with_bytes`: unpack a struct from raw bytes.  Note the source
never checks `len(raw)` against `_sizeof`: short slices are taken as-is.
`initialized` is set inside the loop, so it is true iff there is at least
one field. -/
def create_with_bytes (sc : Schema) (buf : List Nat) (order : ByteOrder) : StructRec :=
  let p := decodeLoop order buf sc.fields 0
  { schema := sc, byteOrder := order, vals := p.1, raw := p.2,
    inited := !sc.fields.isEmpty }

/-- Index of a field name in the declared field list (the dict-membership
test `key in self._fields`; field names are distinct in every schema of the
catalog, so the first hit is the field). -/
def fieldIdx : List (String × Nat) → String → Option Nat
  | [], _ => none
  | p :: rest, name =>
    if p.1 == name then some 0
    else (fieldIdx rest name).map (· + 1)

/-- `__setattr__`: when `key` names a field, assign `self._fields[key] =
value` first, then (if initialized) `_rebuild_raw()`.  The dict write
happens before the rebuild, so a failing rebuild leaves the new field value
assigned while `raw` keeps its previous contents; the pair returned here is
(post-state, raised exception if any).  A non-field key falls through to
ordinary attribute assignment, touching neither `vals` nor `raw`. -/
def setField (r : StructRec) (name : String) (v : FieldVal) : StructRec × Option StructError :=
  match fieldIdx r.schema.fields name with
  | none => (r, none)
  | some i =>
    let r1 : StructRec := { r with vals := r.vals.set i v }
    if r1.inited then
      match rebuildRaw r1 with
      | Except.ok raw => ({ r1 with raw := raw }, none)
      | Except.error e => (r1, some e)
    else (r1, none)

/-- `fat_header` schema: `['magic', 'nfat_archs']`, sizes `[4, 4]`. -/
def fat_header : Schema :=
  ⟨[("magic", 4), ("nfat_archs", 4)]⟩

/-- `unk_command` schema: `['cmd', 'cmdsize']`, sizes `[4, 4]`. -/
def unk_command : Schema :=
  ⟨[("cmd", 4), ("cmdsize", 4)]⟩

/-- `dyld_header` schema: eight 4-byte fields. -/
def dyld_header : Schema :=
  ⟨[("magic", 4), ("cpu_type", 4), ("cpu_subtype", 4), ("filetype", 4),
    ("loadcnt", 4), ("loadsize", 4), ("flags", 4), ("void", 4)]⟩

/-- `symtab_entry` schema: `["str_index", "type", "sect_index", "desc",
"value"]`, sizes `[4, 1, 1, 2, 8]`. -/
def symtab_entry : Schema :=
  ⟨[("str_index", 4), ("type", 1), ("sect_index", 1), ("desc", 2), ("value", 8)]⟩

/-- Fallback record used only to extract the payload of an `Except` in
closed, concrete statements. -/
def defaultStruct : StructRec :=
  { schema := ⟨[]⟩, byteOrder := ByteOrder.little, vals := [], raw := [], inited := false }

/-- Payload of a successful construction (concrete statements only). -/
def okOr (x : Except StructError StructRec) : StructRec :=
  match x with
  | Except.ok r => r
  | Except.error _ => defaultStruct

/-- Concrete fat_header record constructed from values [1, 2] (little). -/
def fatEx : StructRec :=
  okOr (create_with_values fat_header [FieldVal.int 1, FieldVal.int 2] ByteOrder.little)

/-- Concrete unk_command record constructed from values [1, 2] (little). -/
def unkEx : StructRec :=
  okOr (create_with_values unk_command [FieldVal.int 1, FieldVal.int 2] ByteOrder.little)

/-- Concrete symtab_entry record from the spec scenario values. -/
def symtabEx : StructRec :=
  okOr (create_with_values symtab_entry
    [FieldVal.int 10, FieldVal.int 15, FieldVal.int 1, FieldVal.int 0, FieldVal.int 4096]
    ByteOrder.little)

/-- C1: the claim says decoding a buffer shorter than `total_size` fails with
`TruncatedInput`.  The source has no such check: `create_with_bytes` on a
7-byte buffer for the 8-byte `fat_header` schema completes, returns an
initialized record, and its `raw` is the short input verbatim (length 7, not
8).  This theorem evaluates the code at that failing input. -/
theorem claim_C1_truncated_decode_returns_short_record :
    (create_with_bytes fat_header [1, 2, 3, 4, 5, 6, 7] ByteOrder.little).raw = [1, 2, 3, 4, 5, 6, 7]
    ∧ (create_with_bytes fat_header [1, 2, 3, 4, 5, 6, 7] ByteOrder.little).inited = true
    ∧ Schema.sizeof fat_header = 8 := by
  decide

/-- C5: the claim says a value list whose length differs from the field count
fails with `ArityMismatch` before any assignment.  The source checks nothing:
three values for the two-field `fat_header` construct a record from the first
two values and silently ignore the third; a single value raises `IndexError`
(after the first assignment), not an arity error. -/
theorem claim_C5_arity_not_checked :
    create_with_values fat_header [FieldVal.int 1, FieldVal.int 2, FieldVal.int 3] ByteOrder.little
      = Except.ok
          { schema := fat_header, byteOrder := ByteOrder.little,
            vals := [FieldVal.int 1, FieldVal.int 2],
            raw := [1, 0, 0, 0, 2, 0, 0, 0], inited := true }
    ∧ create_with_values fat_header [FieldVal.int 1] ByteOrder.little
      = Except.error StructError.indexError := by
  decide

/-- C6 counterexample: a record produced by decoding a 5-byte buffer for the
8-byte `unk_command` schema has `len(raw) = 5 ≠ 8 = size_of(schema)`, so the
size invariant does not hold for every record after decode completes. -/
theorem claim_C6_counterexample :
    (create_with_bytes unk_command [0, 0, 0, 0, 0] ByteOrder.little).raw.length
      ≠ Schema.sizeof unk_command := by
  decide

/-- C9: encoding the unsigned 32-bit value `0x12345678` into a 4-byte field
yields `78 56 34 12` under little-endian order and `12 34 56 78` under
big-endian order. -/
theorem claim_C9_endianness :
    encodeField ByteOrder.little 4 (FieldVal.int 0x12345678)
      = Except.ok [0x78, 0x56, 0x34, 0x12]
    ∧ encodeField ByteOrder.big 4 (FieldVal.int 0x12345678)
      = Except.ok [0x12, 0x34, 0x56, 0x78] := by
  decide

/-- C8: constructing a `symtab_entry` record (widths [4,1,1,2,8]) from values
[10, 0x0F, 1, 0, 0x1000] under little-endian order yields exactly 16 bytes of
`raw`; setting the last field (`value`) to 0x2000 succeeds and changes only
the final 8 bytes, leaving the first 8 bytes byte-identical. -/
theorem claim_C8_symtab_entry_frame :
    create_with_values symtab_entry
        [FieldVal.int 10, FieldVal.int 15, FieldVal.int 1, FieldVal.int 0, FieldVal.int 4096]
        ByteOrder.little = Except.ok symtabEx
    ∧ symtabEx.raw.length = 16
    ∧ (setField symtabEx "value" (FieldVal.int 8192)).2 = none
    ∧ (setField symtabEx "value" (FieldVal.int 8192)).1.raw.length = 16
    ∧ (setField symtabEx "value" (FieldVal.int 8192)).1.raw.take 8 = symtabEx.raw.take 8
    ∧ (setField symtabEx "value" (FieldVal.int 8192)).1.raw.drop 8 = [0, 0x20, 0, 0, 0, 0, 0, 0]
    ∧ symtabEx.raw.drop 8 = [0, 0x10, 0, 0, 0, 0, 0, 0] := by
  decide

/-- C3 counterexample: on the live `fat_header` record, setting `magic` to
`2^32` signals an error (`OverflowError` in the rebuild), yet the field value
HAS already been assigned when the error surfaces — `_fields[key] = value`
precedes `_rebuild_raw()` in `__setattr__` — refuting "no field value has
been assigned".  (`raw` itself is unchanged.) -/
theorem claim_C3_counterexample :
    (setField fatEx "magic" (FieldVal.int 4294967296)).2 = some StructError.fieldOverflow
    ∧ (setField fatEx "magic" (FieldVal.int 4294967296)).1.vals
        = [FieldVal.int 4294967296, FieldVal.int 2]
    ∧ fatEx.vals = [FieldVal.int 1, FieldVal.int 2] := by
  decide

/-- C7 counterexample: on the live `unk_command` record, first writing `cmd`
as a 3-byte blob (which fails the total-size assert but leaves the blob
assigned), then writing `cmdsize` as a 5-byte blob makes the rebuild SUCCEED
— the two wrong-length blobs compensate (3 + 5 = 8 = total size) — so a blob
write whose length (5) differs from the declared width (4) does not fail,
refuting "fails whenever the blob's byte length differs from the declared
width". -/
theorem claim_C7_counterexample :
    (setField (setField unkEx "cmd" (FieldVal.blob [1, 2, 3])).1
        "cmdsize" (FieldVal.blob [9, 9, 9, 9, 9])).2 = none
    ∧ (setField (setField unkEx "cmd" (FieldVal.blob [1, 2, 3])).1
        "cmdsize" (FieldVal.blob [9, 9, 9, 9, 9])).1.raw = [1, 2, 3, 9, 9, 9, 9, 9]
    ∧ unkEx.inited = true
    ∧ unkEx.schema.fields = [("cmd", 4), ("cmdsize", 4)] := by
  decide

theorem toBytesLE_length (n : Nat) : ∀ v, (toBytesLE v n).length = n := by
  induction n with
  | zero => intro v; rfl
  | succ n ih => intro v; simp [toBytesLE, ih]

theorem toBytes_length (order : ByteOrder) (v n : Nat) : (toBytes order v n).length = n := by
  cases order <;> simp [toBytes, toBytesLE_length]

theorem fromBytesLE_toBytesLE (n : Nat) :
    ∀ v, v < 2 ^ (8 * n) → fromBytesLE (toBytesLE v n) = v := by
  induction n with
  | zero =>
    intro v hv
    interval_cases v
    rfl
  | succ n ih =>
    intro v hv
    have hdiv : v / 256 < 2 ^ (8 * n) := by
      rw [Nat.div_lt_iff_lt_mul (by norm_num : 0 < 256)]
      calc v < 2 ^ (8 * (n + 1)) := hv
        _ = 2 ^ (8 * n) * 256 := by ring
    simp only [toBytesLE, fromBytesLE, ih (v / 256) hdiv]
    omega

theorem foldrBE_toBytesLE (n : Nat) :
    ∀ v, v < 2 ^ (8 * n) →
      (toBytesLE v n).foldr (fun b acc => 256 * acc + b) 0 = v := by
  induction n with
  | zero =>
    intro v hv
    interval_cases v
    rfl
  | succ n ih =>
    intro v hv
    have hdiv : v / 256 < 2 ^ (8 * n) := by
      rw [Nat.div_lt_iff_lt_mul (by norm_num : 0 < 256)]
      calc v < 2 ^ (8 * (n + 1)) := hv
        _ = 2 ^ (8 * n) * 256 := by ring
    simp only [toBytesLE, List.foldr_cons, ih (v / 256) hdiv]
    omega

theorem fromBytes_toBytes (order : ByteOrder) (n v : Nat) (hv : v < 2 ^ (8 * n)) :
    fromBytes order (toBytes order v n) = v := by
  cases order with
  | little => exact fromBytesLE_toBytesLE n v hv
  | big =>
    show fromBytesBE (toBytesLE v n).reverse = v
    rw [fromBytesBE, List.foldl_reverse]
    exact foldrBE_toBytesLE n v hv

theorem decodeLoop_eq_aux (order : ByteOrder) (buf : List Nat) :
    ∀ (flds : List (String × Nat)) (off : Nat),
      decodeLoop order buf flds off = decodeAux order flds (buf.drop off) := by
  intro flds
  induction flds with
  | nil => intro off; rfl
  | cons p rest ih =>
    intro off
    obtain ⟨nm, sz⟩ := p
    simp only [decodeLoop, decodeAux, ih (off + sz), List.drop_drop]

theorem decodeAux_raw_length (order : ByteOrder) :
    ∀ (flds : List (String × Nat)) (buf : List Nat),
      sizesSum flds ≤ buf.length →
      (decodeAux order flds buf).2.length = sizesSum flds := by
  intro flds
  induction flds with
  | nil => intro buf _; simp [decodeAux, sizesSum]
  | cons p rest ih =>
    intro buf h
    obtain ⟨nm, sz⟩ := p
    have hsum : sizesSum ((nm, sz) :: rest) = sz + sizesSum rest := by
      simp [sizesSum]
    rw [hsum] at h
    have h2 : sizesSum rest ≤ (List.drop sz buf).length := by
      rw [List.length_drop]; omega
    have h1 : (List.take sz buf).length = sz := by
      rw [List.length_take]; omega
    simp only [decodeAux, List.length_append, ih (List.drop sz buf) h2, hsum, h1]

/-- Core round-trip: encoding a list of in-range natural values and decoding
the produced buffer yields exactly the same values and the same buffer. -/
theorem encode_decode_fields (order : ByteOrder) (flds : List (String × Nat)) (vs : List Nat)
    (h : List.Forall₂ (fun v (p : String × Nat) => v < 2 ^ (8 * p.2)) vs flds) :
    ∃ raw,
      encodeFields order flds (vs.map (fun v => FieldVal.int (Int.ofNat v))) = Except.ok raw
      ∧ raw.length = sizesSum flds
      ∧ decodeAux order flds raw = (vs.map (fun v => FieldVal.int (Int.ofNat v)), raw) := by
  induction h with
  | nil => exact ⟨[], rfl, rfl, rfl⟩
  | @cons v p vs flds hv htail ih =>
    obtain ⟨nm, sz⟩ := p
    obtain ⟨raw, henc, hlen, hdec⟩ := ih
    have hv' : v < 2 ^ (8 * sz) := hv
    have henc1 : encodeField order sz (FieldVal.int (Int.ofNat v)) = Except.ok (toBytes order v sz) := by
      simp only [encodeField, Int.ofNat_eq_natCast]
      have h0 : ¬ ((v : Int) < 0) := by
        push_neg
        exact_mod_cast Nat.zero_le v
      have h1 : ¬ ((2 : Int) ^ (8 * sz) ≤ (v : Int)) := by
        push_neg
        exact_mod_cast hv'
      rw [if_neg h0, if_neg h1]
      rfl
    have htb : (toBytes order v sz).length = sz := toBytes_length order v sz
    have htakegen : ∀ tb : List Nat, tb.length = sz → (tb ++ raw).take sz = tb := by
      intro tb h
      rw [← h]
      exact List.take_left _ _
    have hdropgen : ∀ tb : List Nat, tb.length = sz → (tb ++ raw).drop sz = raw := by
      intro tb h
      rw [← h]
      exact List.drop_left _ _
    refine ⟨toBytes order v sz ++ raw, ?_, ?_, ?_⟩
    · simp only [List.map_cons, encodeFields, henc1, henc]
    · simp only [List.length_append, htb, hlen, sizesSum, List.map_cons, List.sum_cons]
    · simp only [decodeAux, htakegen _ htb, hdropgen _ htb, hdec,
        fromBytes_toBytes order sz v hv', List.map_cons]

/-- C2: for every schema, byte order, and list of non-negative integer
values matching the field count, each fitting its field's declared byte
width, decoding the bytes of the record constructed from those values yields
field values equal to the originals exactly
(`decode(schema, bytes_of(construct(schema, values, order)), order)`). -/
theorem claim_C2_roundtrip (sc : Schema) (order : ByteOrder) (vs : List Nat)
    (hfit : List.Forall₂ (fun v (p : String × Nat) => v < 2 ^ (8 * p.2)) vs sc.fields) :
    ∃ r, create_with_values sc (vs.map (fun v => FieldVal.int (Int.ofNat v))) order = Except.ok r
      ∧ (create_with_bytes sc r.raw order).vals
          = vs.map (fun v => FieldVal.int (Int.ofNat v)) := by
  obtain ⟨raw, henc, hrawlen, hdec⟩ := encode_decode_fields order sc.fields vs hfit
  have hlen : vs.length = sc.fields.length := hfit.length_eq
  have hmaplen : (vs.map (fun v => FieldVal.int (Int.ofNat v))).length = sc.fields.length := by
    rw [List.length_map, hlen]
  have htake : (vs.map (fun v => FieldVal.int (Int.ofNat v))).take sc.fields.length
      = vs.map (fun v => FieldVal.int (Int.ofNat v)) := by
    rw [← hmaplen]
    exact List.take_length _
  refine ⟨⟨sc, order, vs.map (fun v => FieldVal.int (Int.ofNat v)), raw, true⟩, ?_, ?_⟩
  · have hr0 : rebuildRaw
        { schema := sc, byteOrder := order,
          vals := (vs.map (fun v => FieldVal.int (Int.ofNat v))).take sc.fields.length,
          raw := [], inited := false } = Except.ok raw := by
      simp only [rebuildRaw, htake, henc]
      rw [if_pos]
      exact hrawlen
    simp only [create_with_values]
    rw [if_neg (by rw [hmaplen]; exact lt_irrefl _)]
    rw [hr0, htake]
  · simp only [create_with_bytes, decodeLoop_eq_aux, List.drop_zero, hdec]

theorem rebuildRaw_ok_length (r : StructRec) (raw : List Nat)
    (h : rebuildRaw r = Except.ok raw) : raw.length = Schema.sizeof r.schema := by
  simp only [rebuildRaw] at h
  split at h
  · exact absurd h (by simp)
  · split at h
    · cases h
      assumption
    · exact absurd h (by simp)

theorem setField_eq_none (r : StructRec) (name : String) (v : FieldVal)
    (h : fieldIdx r.schema.fields name = none) :
    setField r name v = (r, none) := by
  simp [setField, h]

theorem setField_eq_uninit (r : StructRec) (name : String) (v : FieldVal) (i : Nat)
    (h : fieldIdx r.schema.fields name = some i) (hinit : r.inited = false) :
    setField r name v = ({ r with vals := r.vals.set i v }, none) := by
  simp [setField, h, hinit]

theorem setField_eq_ok (r : StructRec) (name : String) (v : FieldVal) (i : Nat) (raw : List Nat)
    (h : fieldIdx r.schema.fields name = some i) (hinit : r.inited = true)
    (hreb : rebuildRaw { r with vals := r.vals.set i v } = Except.ok raw) :
    setField r name v = ({ r with vals := r.vals.set i v, raw := raw }, none) := by
  have hreb2 := hreb
  rw [hinit] at hreb2
  simp only [setField, h, hinit]
  rw [hreb2]
  simp

theorem setField_eq_err (r : StructRec) (name : String) (v : FieldVal) (i : Nat) (e : StructError)
    (h : fieldIdx r.schema.fields name = some i) (hinit : r.inited = true)
    (hreb : rebuildRaw { r with vals := r.vals.set i v } = Except.error e) :
    setField r name v = ({ r with vals := r.vals.set i v }, some e) := by
  have hreb2 := hreb
  rw [hinit] at hreb2
  simp only [setField, h, hinit]
  rw [hreb2]
  simp

theorem setField_schema (r : StructRec) (name : String) (v : FieldVal) :
    (setField r name v).1.schema = r.schema := by
  cases hidx : fieldIdx r.schema.fields name with
  | none => rw [setField_eq_none r name v hidx]
  | some i =>
    cases hinit : r.inited with
    | false => rw [setField_eq_uninit r name v i hidx hinit]
    | true =>
      cases hreb : rebuildRaw { r with vals := r.vals.set i v } with
      | ok raw => rw [setField_eq_ok r name v i raw hidx hinit hreb]
      | error e => rw [setField_eq_err r name v i e hidx hinit hreb]

theorem setField_error_raw_aux (r : StructRec) (name : String) (v : FieldVal) (e : StructError)
    (h : (setField r name v).2 = some e) :
    (setField r name v).1.raw = r.raw := by
  cases hidx : fieldIdx r.schema.fields name with
  | none => rw [setField_eq_none r name v hidx]
  | some i =>
    cases hinit : r.inited with
    | false => rw [setField_eq_uninit r name v i hidx hinit]
    | true =>
      cases hreb : rebuildRaw { r with vals := r.vals.set i v } with
      | ok raw =>
        rw [setField_eq_ok r name v i raw hidx hinit hreb] at h
        exact absurd h (by simp)
      | error e2 => rw [setField_eq_err r name v i e2 hidx hinit hreb]

/-- C3 (amended): whenever a field-set (encode) operation signals an error,
the record's `raw` buffer is left unchanged; however the in-memory field
value has already been assigned by the time the error surfaces (see the
counterexample), and a failing construct returns an error with no record at
all.  This is the all-or-nothing guarantee the code actually provides: it
covers `raw`, not the field-value mapping. -/
theorem claim_C3_amended (r : StructRec) (name : String) (v : FieldVal) (e : StructError)
    (h : (setField r name v).2 = some e) :
    (setField r name v).1.raw = r.raw := by
  exact setField_error_raw_aux r name v e h

/-- Witness for `claim_C3_amended` at a concrete input: setting `magic` of
the live `fat_header` record to `2^32` signals `fieldOverflow` and leaves
`raw` unchanged. -/
theorem claim_C3_amended_witness :
    (setField fatEx "magic" (FieldVal.int 4294967296)).2 = some StructError.fieldOverflow
    ∧ (setField fatEx "magic" (FieldVal.int 4294967296)).1.raw = fatEx.raw :=
  ⟨by decide,
   claim_C3_amended fatEx "magic" (FieldVal.int 4294967296) StructError.fieldOverflow (by decide)⟩

/-- C6 (amended): the size invariant `len(bytes_of(record)) ==
size_of(schema)` holds for every record produced by a successful construct,
for every record decoded from a buffer of length at least `total_size`, and
it is preserved by every field mutation, successful or failed.  (It fails
for records decoded from shorter buffers — see the counterexample — because
decode never checks the input length.) -/
theorem claim_C6_amended :
    (∀ (sc : Schema) (values : List FieldVal) (order : ByteOrder) (r : StructRec),
        create_with_values sc values order = Except.ok r →
        r.raw.length = Schema.sizeof r.schema)
    ∧ (∀ (sc : Schema) (buf : List Nat) (order : ByteOrder),
        Schema.sizeof sc ≤ buf.length →
        (create_with_bytes sc buf order).raw.length
          = Schema.sizeof (create_with_bytes sc buf order).schema)
    ∧ (∀ (r : StructRec) (name : String) (v : FieldVal),
        r.raw.length = Schema.sizeof r.schema →
        (setField r name v).1.raw.length = Schema.sizeof (setField r name v).1.schema) := by
  refine ⟨?_, ?_, ?_⟩
  · intro sc values order r h
    simp only [create_with_values] at h
    by_cases hlt : values.length < sc.fields.length
    · rw [if_pos hlt] at h
      exact absurd h (by simp)
    · rw [if_neg hlt] at h
      cases hreb : rebuildRaw
          { schema := sc, byteOrder := order, vals := values.take sc.fields.length,
            raw := [], inited := false } with
      | error e =>
        rw [hreb] at h
        exact absurd h (by simp)
      | ok raw =>
        rw [hreb] at h
        have hr := rebuildRaw_ok_length _ _ hreb
        cases h
        exact hr
  · intro sc buf order h
    have h2 : sizesSum sc.fields ≤ buf.length := h
    simp only [create_with_bytes, decodeLoop_eq_aux, List.drop_zero]
    exact decodeAux_raw_length order sc.fields buf h2
  · intro r name v h
    rw [setField_schema]
    cases hidx : fieldIdx r.schema.fields name with
    | none => rw [setField_eq_none r name v hidx]; exact h
    | some i =>
      cases hinit : r.inited with
      | false => rw [setField_eq_uninit r name v i hidx hinit]; exact h
      | true =>
        cases hreb : rebuildRaw { r with vals := r.vals.set i v } with
        | ok raw =>
          rw [setField_eq_ok r name v i raw hidx hinit hreb]
          show raw.length = Schema.sizeof r.schema
          exact rebuildRaw_ok_length { r with vals := r.vals.set i v } raw hreb
        | error e =>
          rw [setField_eq_err r name v i e hidx hinit hreb]
          exact h

/-- Witness for `claim_C6_amended`: all three parts at concrete inputs —
the constructed `fat_header` record, a decode from an over-long 9-byte
buffer, and a field mutation on the live record. -/
theorem claim_C6_amended_witness :
    fatEx.raw.length = Schema.sizeof fatEx.schema
    ∧ (create_with_bytes fat_header [1, 2, 3, 4, 5, 6, 7, 8, 9] ByteOrder.little).raw.length
        = Schema.sizeof (create_with_bytes fat_header [1, 2, 3, 4, 5, 6, 7, 8, 9] ByteOrder.little).schema
    ∧ (setField fatEx "magic" (FieldVal.int 7)).1.raw.length
        = Schema.sizeof (setField fatEx "magic" (FieldVal.int 7)).1.schema :=
  ⟨claim_C6_amended.1 fat_header [FieldVal.int 1, FieldVal.int 2] ByteOrder.little fatEx (by decide),
   claim_C6_amended.2.1 fat_header [1, 2, 3, 4, 5, 6, 7, 8, 9] ByteOrder.little (by decide),
   claim_C6_amended.2.2 fatEx "magic" (FieldVal.int 7) (by decide)⟩

theorem encodeFields_set_overflow (order : ByteOrder) :
    ∀ (flds : List (String × Nat)) (vals : List FieldVal) (w : List Nat) (i : Nat)
      (nm : String) (sz : Nat) (v : Int),
      encodeFields order flds vals = Except.ok w →
      flds[i]? = some (nm, sz) →
      (2 : Int) ^ (8 * sz) ≤ v →
      encodeFields order flds (vals.set i (FieldVal.int v))
        = Except.error StructError.fieldOverflow := by
  intro flds
  induction flds with
  | nil =>
    intro vals w i nm sz v hok hget hv
    simp at hget
  | cons p rest ih =>
    intro vals w i nm sz v hok hget hv
    obtain ⟨n1, s1⟩ := p
    cases vals with
    | nil => exact absurd hok (by simp [encodeFields])
    | cons x xs =>
      have hvpos : ¬ (v < 0) := by
        have h1 : (0 : Int) < 2 ^ (8 * sz) := by positivity
        omega
      cases i with
      | zero =>
        have hp : (n1, s1) = (nm, sz) := by
          simpa using hget
        have hsz : s1 = sz := congrArg Prod.snd hp
        subst hsz
        simp only [List.set]
        simp only [encodeFields, encodeField]
        rw [if_neg hvpos, if_pos hv]
      | succ i =>
        have hget2 : rest[i]? = some (nm, sz) := by
          simpa using hget
        simp only [List.set]
        cases hx : encodeField order s1 x with
        | error e =>
          rw [encodeFields, hx] at hok
          exact absurd hok (by simp)
        | ok d =>
          cases ht : encodeFields order rest xs with
          | error e =>
            rw [encodeFields, hx, ht] at hok
            exact absurd hok (by simp)
          | ok t =>
            have hrec := ih xs t i nm sz v ht hget2 hv
            rw [encodeFields, hx, hrec]

theorem encodeFields_set_negative (order : ByteOrder) :
    ∀ (flds : List (String × Nat)) (vals : List FieldVal) (i : Nat)
      (nm : String) (sz : Nat) (v : Int),
      flds[i]? = some (nm, sz) →
      v < 0 →
      ∃ e, encodeFields order flds (vals.set i (FieldVal.int v)) = Except.error e := by
  intro flds
  induction flds with
  | nil =>
    intro vals i nm sz v hget hv
    simp at hget
  | cons p rest ih =>
    intro vals i nm sz v hget hv
    obtain ⟨n1, s1⟩ := p
    cases vals with
    | nil =>
      exact ⟨StructError.missingField, by simp [encodeFields]⟩
    | cons x xs =>
      cases i with
      | zero =>
        refine ⟨StructError.negativeInt, ?_⟩
        simp only [List.set, encodeFields, encodeField]
        rw [if_pos hv]
      | succ i =>
        have hget2 : rest[i]? = some (nm, sz) := by
          simpa using hget
        simp only [List.set]
        cases hx : encodeField order s1 x with
        | error e =>
          exact ⟨e, by rw [encodeFields, hx]⟩
        | ok d =>
          obtain ⟨e, he⟩ := ih xs i nm sz v hget2 hv
          exact ⟨e, by rw [encodeFields, hx, he]⟩

/-- C4: on a live (initialized) record whose current field values encode
successfully (as any record reached through successful operations does),
setting the scalar field of width `sz` to an integer `v ≥ 2^(8·sz)` fails
with `fieldOverflow` (the `OverflowError` of `int.to_bytes`), and the raw
buffer afterwards equals the raw buffer from before the attempted write. -/
theorem claim_C4_overflow (r : StructRec) (name : String) (i : Nat) (nm : String) (sz : Nat)
    (v : Int) (w : List Nat)
    (hidx : fieldIdx r.schema.fields name = some i)
    (hget : r.schema.fields[i]? = some (nm, sz))
    (hinit : r.inited = true)
    (hok : encodeFields r.byteOrder r.schema.fields r.vals = Except.ok w)
    (hv : (2 : Int) ^ (8 * sz) ≤ v) :
    (setField r name (FieldVal.int v)).2 = some StructError.fieldOverflow
    ∧ (setField r name (FieldVal.int v)).1.raw = r.raw := by
  have henc := encodeFields_set_overflow r.byteOrder r.schema.fields r.vals w i nm sz v hok hget hv
  have hreb : rebuildRaw { r with vals := r.vals.set i (FieldVal.int v) }
      = Except.error StructError.fieldOverflow := by
    simp only [rebuildRaw]
    rw [henc]
  rw [setField_eq_err r name (FieldVal.int v) i StructError.fieldOverflow hidx hinit hreb]
  exact ⟨rfl, rfl⟩

/-- Witness for `claim_C4_overflow`: `2^32 + 1` written to the 4-byte
`magic` field of the live `fat_header` record. -/
theorem claim_C4_overflow_witness :
    (setField fatEx "magic" (FieldVal.int 4294967297)).2 = some StructError.fieldOverflow
    ∧ (setField fatEx "magic" (FieldVal.int 4294967297)).1.raw = fatEx.raw :=
  claim_C4_overflow fatEx "magic" 0 "magic" 4 4294967297 [1, 0, 0, 0, 2, 0, 0, 0]
    (by decide) (by decide) (by decide) (by decide) (by norm_num)

/-- C10: on a live (initialized) record, setting any field to a negative
integer makes the triggered re-encode fail (`int.to_bytes` rejects negative
values), and the raw buffer afterwards equals the raw buffer from before the
attempted write — so no completed operation leaves `raw` encoding a negative
scalar. -/
theorem claim_C10_negative (r : StructRec) (name : String) (i : Nat) (nm : String) (sz : Nat)
    (v : Int)
    (hidx : fieldIdx r.schema.fields name = some i)
    (hget : r.schema.fields[i]? = some (nm, sz))
    (hinit : r.inited = true)
    (hv : v < 0) :
    (∃ e, (setField r name (FieldVal.int v)).2 = some e)
    ∧ (setField r name (FieldVal.int v)).1.raw = r.raw := by
  obtain ⟨e, he⟩ := encodeFields_set_negative r.byteOrder r.schema.fields r.vals i nm sz v hget hv
  have hreb : rebuildRaw { r with vals := r.vals.set i (FieldVal.int v) }
      = Except.error e := by
    simp only [rebuildRaw]
    rw [he]
  rw [setField_eq_err r name (FieldVal.int v) i e hidx hinit hreb]
  exact ⟨⟨e, rfl⟩, rfl⟩

/-- Witness for `claim_C10_negative`: writing `-1` to `nfat_archs` of the
live `fat_header` record. -/
theorem claim_C10_negative_witness :
    (∃ e, (setField fatEx "nfat_archs" (FieldVal.int (-1))).2 = some e)
    ∧ (setField fatEx "nfat_archs" (FieldVal.int (-1))).1.raw = fatEx.raw :=
  claim_C10_negative fatEx "nfat_archs" 1 "nfat_archs" 4 (-1)
    (by decide) (by decide) (by decide) (by norm_num)

theorem encodeFields_append (order : ByteOrder) :
    ∀ (F1 F2 : List (String × Nat)) (V1 V2 : List FieldVal) (w1 : List Nat),
      V1.length = F1.length →
      encodeFields order F1 V1 = Except.ok w1 →
      encodeFields order (F1 ++ F2) (V1 ++ V2)
        = match encodeFields order F2 V2 with
          | Except.error e => Except.error e
          | Except.ok w2 => Except.ok (w1 ++ w2) := by
  intro F1
  induction F1 with
  | nil =>
    intro F2 V1 V2 w1 hlen hok
    have hV1 : V1 = [] := List.length_eq_zero.mp (by simpa using hlen)
    subst hV1
    cases hok
    cases h2 : encodeFields order F2 V2 <;> simp [h2]
  | cons p rest ih =>
    intro F2 V1 V2 w1 hlen hok
    obtain ⟨n1, s1⟩ := p
    cases V1 with
    | nil => simp at hlen
    | cons x xs =>
      have hlen2 : xs.length = rest.length := by simpa using hlen
      cases hx : encodeField order s1 x with
      | error e =>
        rw [encodeFields, hx] at hok
        exact absurd hok (by simp)
      | ok d =>
        cases ht : encodeFields order rest xs with
        | error e =>
          rw [encodeFields, hx, ht] at hok
          exact absurd hok (by simp)
        | ok t =>
          rw [encodeFields, hx, ht] at hok
          have hw : w1 = d ++ t := by cases hok; rfl
          subst hw
          have hrec := ih F2 xs V2 t hlen2 ht
          show encodeFields order ((n1, s1) :: (rest ++ F2)) (x :: (xs ++ V2)) = _
          rw [encodeFields, hx, hrec]
          cases h2 : encodeFields order F2 V2 <;> simp [List.append_assoc]

/-- C7 (amended): during re-encoding of a live record, a blob-valued field is
copied verbatim into `raw` at its field's offset; but the only check is the
final total-length assert, so the re-encode fails exactly when the total
encoded length differs from `total_size`.  When every OTHER field encodes at
its declared width (below: the fields before and after the blob produce `w1`
and `w2` of exactly their declared total widths), the re-encode succeeds iff
the blob's length equals the declared width — and the failure is the
total-size assert, not a per-field width check, so compensating mismatches
across several blob fields go undetected (see the counterexample). -/
theorem claim_C7_amended (r : StructRec) (F1 F2 : List (String × Nat)) (nm : String) (sz : Nat)
    (b : List Nat) (V1 V2 : List FieldVal) (w1 w2 : List Nat)
    (hschema : r.schema.fields = F1 ++ (nm, sz) :: F2)
    (hvals : r.vals = V1 ++ FieldVal.blob b :: V2)
    (hlen1 : V1.length = F1.length)
    (h1 : encodeFields r.byteOrder F1 V1 = Except.ok w1)
    (hw1 : w1.length = sizesSum F1)
    (h2 : encodeFields r.byteOrder F2 V2 = Except.ok w2)
    (hw2 : w2.length = sizesSum F2) :
    (b.length = sz → rebuildRaw r = Except.ok (w1 ++ b ++ w2))
    ∧ (b.length ≠ sz → rebuildRaw r = Except.error StructError.sizeAssert) := by
  have henc : encodeFields r.byteOrder r.schema.fields r.vals = Except.ok (w1 ++ (b ++ w2)) := by
    rw [hschema, hvals]
    rw [encodeFields_append r.byteOrder F1 ((nm, sz) :: F2) V1 (FieldVal.blob b :: V2) w1 hlen1 h1]
    rw [encodeFields, show encodeField r.byteOrder sz (FieldVal.blob b) = Except.ok b from rfl, h2]
  have hsize : Schema.sizeof r.schema = sizesSum F1 + (sz + sizesSum F2) := by
    rw [Schema.sizeof, hschema]
    simp [sizesSum]
  constructor
  · intro hb
    simp only [rebuildRaw, henc]
    rw [if_pos]
    · rw [List.append_assoc]
    · simp only [List.length_append, hw1, hw2, hb, hsize]
  · intro hb
    simp only [rebuildRaw, henc]
    rw [if_neg]
    simp only [List.length_append, hw1, hw2, hsize]
    omega

/-- Witness for `claim_C7_amended`: on a live two-field record
(`unk_command`, widths 4 and 4) whose second field holds a blob, a
width-4 blob re-encodes verbatim and a width-3 blob fails the total-size
assert. -/
theorem claim_C7_amended_witness :
    rebuildRaw
        { schema := unk_command, byteOrder := ByteOrder.little,
          vals := [FieldVal.int 5, FieldVal.blob [7, 7, 7, 7]],
          raw := [5, 0, 0, 0, 7, 7, 7, 7], inited := true }
      = Except.ok ([5, 0, 0, 0] ++ [7, 7, 7, 7] ++ [])
    ∧ rebuildRaw
        { schema := unk_command, byteOrder := ByteOrder.little,
          vals := [FieldVal.int 5, FieldVal.blob [7, 7, 7]],
          raw := [5, 0, 0, 0, 7, 7, 7, 7], inited := true }
      = Except.error StructError.sizeAssert :=
  ⟨(claim_C7_amended
      { schema := unk_command, byteOrder := ByteOrder.little,
        vals := [FieldVal.int 5, FieldVal.blob [7, 7, 7, 7]],
        raw := [5, 0, 0, 0, 7, 7, 7, 7], inited := true }
      [("cmd", 4)] [] "cmdsize" 4 [7, 7, 7, 7] [FieldVal.int 5] [] [5, 0, 0, 0] []
      (by decide) (by decide) (by decide) (by decide) (by decide) (by decide) (by decide)).1
    (by decide),
   (claim_C7_amended
      { schema := unk_command, byteOrder := ByteOrder.little,
        vals := [FieldVal.int 5, FieldVal.blob [7, 7, 7]],
        raw := [5, 0, 0, 0, 7, 7, 7, 7], inited := true }
      [("cmd", 4)] [] "cmdsize" 4 [7, 7, 7] [FieldVal.int 5] [] [5, 0, 0, 0] []
      (by decide) (by decide) (by decide) (by decide) (by decide) (by decide) (by decide)).2
    (by decide)⟩

/-- Witness for `claim_C2_roundtrip`: the two-field `fat_header` schema with
values `[5, 6]`, each fitting its 4-byte width. -/
theorem claim_C2_roundtrip_witness :
    ∃ r, create_with_values fat_header
          ([5, 6].map (fun v => FieldVal.int (Int.ofNat v))) ByteOrder.little = Except.ok r
      ∧ (create_with_bytes fat_header r.raw ByteOrder.little).vals
          = [5, 6].map (fun v => FieldVal.int (Int.ofNat v)) :=
  claim_C2_roundtrip fat_header ByteOrder.little [5, 6]
    (List.Forall₂.cons (by norm_num) (List.Forall₂.cons (by norm_num) List.Forall₂.nil))
